import Mathlib

/-!
Shallow embedding of the skizze persistence layer (smartfile LRU page cache,
random-access File, storage Manager/Registry, SketchProxy) and proofs of the
specification claims about it.

Conventions of the embedding:
* bytes are modelled as natural numbers, byte buffers as lists of naturals;
* Go error values are modelled as an opaque numeric code wrapped in Option
  (none = nil error);
* the doubly linked recency list of the LRU cache is a Lean list whose head
  is the front (most recently used) and whose last element is the back
  (least recently used); the map from key to list element of the Go code is
  recovered by key lookup, which agrees with it because the Go code keeps at
  most one element per key;
* In Go, callbacks and OS calls are side effects; here every operation
  returns the evicted entries, and the File carries explicit traces of the
  positional reads and writes issued against the OS file, together with
  oracle fields describing how the OS would respond.
-/

namespace Skizze

/-- Cached page: a byte buffer plus a dirty flag (Go type item in the
smartfile package). -/
structure Item where
  bytes : List Nat
  dirty : Bool
deriving DecidableEq, Repr

/-- LRU page cache (Go type Cache). The field ll lists the entries front
(most recently used) first; the Go map from key to element is recovered by
key search. -/
structure Cache where
  maxEntries : Nat
  ll : List (Int × Item)
deriving DecidableEq, Repr

/-- Key equality test on recency list entries. -/
def keyEq (k : Int) : Int × Item → Bool := fun p => p.1 == k

/-- Go NewLRU: fresh cache with the given capacity (0 = unbounded). -/
def Cache.NewLRU (maxEntries : Nat) : Cache := ⟨maxEntries, []⟩

/-- Go Cache.removeOldest: starting from the back (least recently used), the
loop advances with Prev toward the front, so the entries examined for the
dirty flag are the ones from the second least recently used to the front
inclusive; the first clean one found is removed, and if none is clean the
back itself is removed regardless of its dirty flag. Returns the updated
cache and the entries handed to the eviction callback. -/
def Cache.removeOldest (c : Cache) : Cache × List (Int × Item) :=
  match c.ll.reverse with
  | [] => (c, [])
  | oldest :: rest =>
    match rest.find? (fun p => !p.2.dirty) with
    | some p => ({c with ll := c.ll.eraseP (keyEq p.1)}, [p])
    | none => ({c with ll := c.ll.eraseP (keyEq oldest.1)}, [oldest])

/-- Go Cache.Add: an existing key is moved to the front and its value
replaced; a new key is pushed to the front and, if the capacity is nonzero
and exceeded, removeOldest is invoked. Returns the updated cache and the
entries handed to the eviction callback. -/
def Cache.Add (c : Cache) (key : Int) (value : Item) : Cache × List (Int × Item) :=
  if c.ll.any (keyEq key) then
    ({c with ll := (key, value) :: c.ll.eraseP (keyEq key)}, [])
  else
    let c' : Cache := {c with ll := (key, value) :: c.ll}
    if c'.maxEntries != 0 && c'.ll.length > c'.maxEntries then
      c'.removeOldest
    else
      (c', [])

/-- Go Cache.get: a hit moves the element to the front and returns its
value; a miss returns none. -/
def Cache.get (c : Cache) (key : Int) : Cache × Option Item :=
  match c.ll.find? (keyEq key) with
  | some p => ({c with ll := (p.1, p.2) :: c.ll.eraseP (keyEq key)}, some p.2)
  | none => (c, none)

/-- Go Cache.peek: lookup without touching the recency order. -/
def Cache.peek (c : Cache) (key : Int) : Option Item :=
  (c.ll.find? (keyEq key)).map (·.2)

/-- Go Cache.keys: the keys from oldest to newest, i.e. the recency list
read from the back. -/
def Cache.keys (c : Cache) : List Int :=
  c.ll.reverse.map (·.1)

/-- Go Cache.clear: every resident entry is handed to the eviction callback
and the cache is emptied. -/
def Cache.clear (c : Cache) : Cache × List (Int × Item) :=
  ({c with ll := []}, c.ll)

/-- Go Cache.len. -/
def Cache.len (c : Cache) : Nat := c.ll.length

/-- Overwrite the dirty flag of the entry stored under a key, leaving the
recency order and the bytes untouched. This models the Go Flush loop
mutating the peeked item pointer in place (item.dirty = false). -/
def Cache.setDirty (c : Cache) (key : Int) (d : Bool) : Cache :=
  {c with ll := c.ll.map (fun p => if p.1 == key then (p.1, ⟨p.2.bytes, d⟩) else p)}

/-- Outcome of a positional read (os.File.ReadAt): either the buffer filled
with the bytes read, or an error code together with the partially filled
buffer Go leaves behind on a short read. -/
inductive ReadOutcome where
  | ok (bytes : List Nat)
  | fail (e : Nat) (partialBytes : List Nat)
deriving DecidableEq, Repr

/-- Error code returned by a positional write on a closed OS file. -/
def closedFileErr : Nat := 100

/-- Random-access file (Go type File in the smartfile package). The OS file
handle is modelled by a closed flag and two oracle fields describing how
ReadAt and WriteAt would respond; the positional reads and writes actually
issued are recorded in the traces rtrace and wtrace (a wtrace element is
offset, bytes, success flag). -/
structure File where
  closed : Bool
  osRead : Int → Nat → ReadOutcome
  osWriteErr : Int → List Nat → Option Nat
  queue : Cache
  size : Nat
  ops : Nat
  rtrace : List (Int × Nat)
  wtrace : List (Int × List Nat × Bool)

/-- Positional write fq.file.WriteAt(bytes, offset): fails on a closed
handle, otherwise succeeds or fails as the oracle dictates; the issued
write is recorded in the trace either way. -/
def File.writeAt (f : File) (bytes : List Nat) (offset : Int) : File × Option Nat :=
  if f.closed then
    ({f with wtrace := f.wtrace ++ [(offset, bytes, false)]}, some closedFileErr)
  else
    match f.osWriteErr offset bytes with
    | some e => ({f with wtrace := f.wtrace ++ [(offset, bytes, false)]}, some e)
    | none => ({f with wtrace := f.wtrace ++ [(offset, bytes, true)]}, none)

/-- The OnEvicted callback installed by NewFile: each evicted entry is
written back to the OS file at its offset, the write error being ignored. -/
def File.applyEvictions (f : File) (evs : List (Int × Item)) : File :=
  evs.foldl (fun g p => (g.writeAt p.2.bytes p.1).1) f

/-- Go NewFile after a successful os.OpenFile: a fresh open file whose
private cache has capacity size and whose write counter is zero. The
oracles stand for the opened OS handle. -/
def NewFile (osRead : Int → Nat → ReadOutcome)
    (osWriteErr : Int → List Nat → Option Nat) (size : Nat) : File :=
  ⟨false, osRead, osWriteErr, Cache.NewLRU size, size, 0, [], []⟩

/-- One step of the Go Flush loop over the key snapshot: peek the key, and
if the entry is dirty issue a positional write, returning its error at once
if it fails; otherwise clear the dirty flag in place and continue. The
peek-none branch is unreachable because the keys come from the cache
itself. -/
def File.flushKeys (f : File) (ks : List Int) : File × Option Nat :=
  match ks with
  | [] => (f, none)
  | k :: rest =>
    match f.queue.peek k with
    | none => f.flushKeys rest
    | some it =>
      if it.dirty then
        match f.writeAt it.bytes k with
        | (f', some e) => (f', some e)
        | (f', none) => File.flushKeys {f' with queue := f'.queue.setDirty k false} rest
      else
        File.flushKeys {f with queue := f.queue.setDirty k false} rest

/-- Go File.Flush: walk the keys oldest to newest, writing back every dirty
entry and clearing its dirty flag, stopping at the first write error. -/
def File.Flush (f : File) : File × Option Nat :=
  f.flushKeys f.queue.keys

/-- Go File.Write: increment the write counter, insert the buffer as a
dirty entry (write-back of any evicted entry happens through the callback),
and force a full flush on every size-th write. -/
def File.Write (f : File) (data : List Nat) (offset : Int) : File :=
  let f1 : File := {f with ops := f.ops + 1}
  let qe := f1.queue.Add offset ⟨data, true⟩
  let f2 := ({f1 with queue := qe.1}).applyEvictions qe.2
  if f2.ops % f2.size == 0 then (f2.Flush).1 else f2

/-- Go File.Read: on a cache hit, copy the leading bytes of the entry into
the buffer when the entry is at least as long as the buffer (otherwise the
buffer is left untouched) and return nil. On a miss, issue a positional
read; the source returns its error when the error is nil, and otherwise
falls through to insert the buffer as a clean entry and return nil — the
inverted condition of the Go code is reproduced verbatim here. Returns the
updated file, the caller's buffer after the call, and the returned error. -/
def File.Read (f : File) (data : List Nat) (offset : Int) :
    File × List Nat × Option Nat :=
  let qv := f.queue.get offset
  let f1 : File := {f with queue := qv.1}
  match qv.2 with
  | some v =>
    if data.length ≤ v.bytes.length then
      (f1, v.bytes.take data.length, none)
    else
      (f1, data, none)
  | none =>
    match f.osRead offset data.length with
    | .ok bytes =>
      ({f1 with rtrace := f1.rtrace ++ [(offset, data.length)]}, bytes, none)
    | .fail _ pbytes =>
      let f2 : File := {f1 with rtrace := f1.rtrace ++ [(offset, data.length)]}
      let qe := f2.queue.Add offset ⟨pbytes, false⟩
      (({f2 with queue := qe.1}).applyEvictions qe.2, pbytes, none)

/-- Go File.Purge: close the OS handle first, then clear the cache — the
eviction callbacks fired by clear hence write to a closed file and fail —
and reset the write counter. No flush is performed. -/
def File.Purge (f : File) : File :=
  let f1 : File := {f with closed := true}
  let qe := f1.queue.clear
  let f2 := ({f1 with queue := qe.1}).applyEvictions qe.2
  {f2 with ops := 0}

/-- Error code returned by os.Remove when the path does not exist. -/
def removeAbsentErr : Nat := 101

/-- Cache capacity the storage manager passes to every NewFile call. -/
def managerFileCap : Nat := 100000

/-- Storage manager (Go type ManagerStruct). The registry m.cache — whose
implementation is not part of this repository — is Modelled from the spec:
an association from object identifier to open Random-Access File (the LRU
bound and recency promotion of the registry itself play no role in the
claims and are not modelled). The medium is the set of backing file paths
present, and openErr is the oracle telling whether os.OpenFile fails for an
identifier; osRead and osWriteErr seed the oracle fields of newly opened
files. -/
structure Manager where
  cache : List (String × File)
  disk : List String
  openErr : String → Option Nat
  osRead : String → Int → Nat → ReadOutcome
  osWriteErr : String → Int → List Nat → Option Nat

/-- Registry lookup (m.cache.Get). -/
def regGet (cache : List (String × File)) (id : String) : Option File :=
  (cache.find? (fun p => p.1 == id)).map (·.2)

/-- Overwrite the file stored under an identifier in place, modelling that
the registry holds a pointer to the File the Go code mutates. -/
def regSet (cache : List (String × File)) (id : String) (f : File) :
    List (String × File) :=
  cache.map (fun p => if p.1 == id then (id, f) else p)

/-- Go smartfile.NewFile seen from the manager: os.OpenFile with O_CREATE
either fails per the oracle, or yields a fresh file and ensures the backing
path exists on the medium. -/
def Manager.openFile (m : Manager) (id : String) :
    Option (File × List String) × Option Nat :=
  match m.openErr id with
  | some e => (none, some e)
  | none =>
    (some (NewFile (m.osRead id) (m.osWriteErr id) managerFileCap,
      if m.disk.contains id then m.disk else id :: m.disk), none)

/-- Go ManagerStruct.getFileFromCache: return the cached file on a registry
hit; otherwise open the file, registering it only when the open succeeded,
and return the file (nil on failure) together with the open error. -/
def Manager.getFileFromCache (m : Manager) (id : String) :
    Manager × Option File × Option Nat :=
  match regGet m.cache id with
  | some f => (m, some f, none)
  | none =>
    match m.openFile id with
    | (some fd, _) =>
      let c := (id, fd.1) :: m.cache.eraseP (fun p => p.1 == id)
      ({m with cache := c, disk := fd.2}, some fd.1, none)
    | (none, e) => (m, none, e)

/-- Go ManagerStruct.Create: open (creating if necessary) the file for the
identifier and register it, replacing any previous registry entry. -/
def Manager.Create (m : Manager) (id : String) : Manager × Option Nat :=
  match m.openFile id with
  | (some fd, _) =>
    let c := (id, fd.1) :: m.cache.eraseP (fun p => p.1 == id)
    ({m with cache := c, disk := fd.2}, none)
  | (none, e) => (m, e)

/-- Outcome of ManagerStruct.SaveData: either the function returns the
given error value, or it dereferences a nil *File inside Write and the Go
runtime panics. -/
inductive SaveOutcome where
  | ret (e : Option Nat)
  | nilPanic
deriving DecidableEq, Repr

/-- Go ManagerStruct.SaveData: resolve the file, then call f.Write without
checking the resolution error, and only afterwards return that error. When
the resolution failed the returned handle is nil and the Write call is a
nil-pointer dereference, modelled by the nilPanic outcome. -/
def Manager.SaveData (m : Manager) (id : String) (data : List Nat)
    (offset : Int) : Manager × SaveOutcome :=
  match m.getFileFromCache id with
  | (m1, some f, e) =>
    ({m1 with cache := regSet m1.cache id (f.Write data offset)}, .ret e)
  | (m1, none, _) => (m1, .nilPanic)

/-- Go ManagerStruct.DeleteData: purge the file if its identifier is open
in the registry (the registry entry itself is left in place, still mapping
the identifier to the purged handle), then remove the backing file from the
medium, returning the os.Remove error. -/
def Manager.DeleteData (m : Manager) (id : String) : Manager × Option Nat :=
  let m1 : Manager :=
    match regGet m.cache id with
    | some f => {m with cache := regSet m.cache id f.Purge}
    | none => m
  if m1.disk.contains id then
    ({m1 with disk := m1.disk.erase id}, none)
  else
    (m1, some removeAbsentErr)

/-- Environment of a SketchProxy. The pieces it stands for — the config
values, the abstract sketch collaborator, and the manager save calls — are
not part of this repository and are Modelled from the spec: thresholdOps is
config.SaveThresholdOps (a positive operation-count trigger); sketchAdd and
sketchRemove map a sketch state and the byte-string values to the new state
and the (bool, error) result of the mutation; marshal serializes a sketch
state or fails; saveDataErr and saveInfoErr are the outcomes of the two
registry writes performed by a save. -/
structure SketchEnv where
  thresholdOps : Nat
  sketchAdd : Nat → List (List Nat) → Nat × Bool × Option Nat
  sketchRemove : Nat → List (List Nat) → Nat × Bool × Option Nat
  marshal : Nat → Except Nat (List Nat)
  saveDataErr : Option Nat
  saveInfoErr : Option Nat

/-- Persistence proxy state (Go type SketchProxy): the owned sketch
instance (abstract state), the operation counter, the dirty flag, and the
adds and remove counters of the metadata properties map. -/
structure SketchProxy where
  sketch : Nat
  ops : Nat
  dirty : Bool
  adds : Nat
  removes : Nat
deriving DecidableEq, Repr

/-- Go SketchProxy.save: a no-op when the proxy is clean; when the counter
is divisible by the threshold or force is set, increment the counter, clear
the dirty flag, marshal the sketch and issue the two registry writes,
logging (never propagating) the marshal and write errors. Returns the new
state, the logged error codes, and the number of registry saves performed
(0 or 1). -/
def SketchProxy.save (sp : SketchProxy) (env : SketchEnv) (force : Bool) :
    SketchProxy × List Nat × Nat :=
  if !sp.dirty then (sp, [], 0)
  else if sp.ops % env.thresholdOps == 0 || force then
    let sp1 : SketchProxy := {sp with ops := sp.ops + 1, dirty := false}
    let mlog : List Nat :=
      match env.marshal sp1.sketch with
      | .ok _ => []
      | .error e => [e]
    let dlog : List Nat := match env.saveDataErr with | some e => [e] | none => []
    let ilog : List Nat := match env.saveInfoErr with | some e => [e] | none => []
    (sp1, mlog ++ dlog ++ ilog, 1)
  else
    (sp, [], 0)

/-- Go SketchProxy.Add: under the exclusive lock, increment the operation
counter and the adds property, set the dirty flag, mutate the sketch, and
on scope exit run save(false); the call returns exactly the sketch
mutation's (bool, error) result. Also returns the logged error codes and
the number of registry saves performed. -/
def SketchProxy.Add (sp : SketchProxy) (env : SketchEnv)
    (values : List (List Nat)) :
    SketchProxy × (Bool × Option Nat) × List Nat × Nat :=
  let sp1 : SketchProxy :=
    {sp with ops := sp.ops + 1, adds := sp.adds + 1, dirty := true}
  let r := env.sketchAdd sp1.sketch values
  let sp2 : SketchProxy := {sp1 with sketch := r.1}
  let st := sp2.save env false
  (st.1, r.2, st.2)

/-- Go SketchProxy.Remove: as Add, with the remove property counter and the
sketch removal. -/
def SketchProxy.Remove (sp : SketchProxy) (env : SketchEnv)
    (values : List (List Nat)) :
    SketchProxy × (Bool × Option Nat) × List Nat × Nat :=
  let sp1 : SketchProxy :=
    {sp with ops := sp.ops + 1, removes := sp.removes + 1, dirty := true}
  let r := env.sketchRemove sp1.sketch values
  let sp2 : SketchProxy := {sp1 with sketch := r.1}
  let st := sp2.save env false
  (st.1, r.2, st.2)

/-- Go createSketch viewed at the proxy level: the fresh proxy starts with
counter 0 and the dirty flag set, and a forced save is run before the proxy
is returned. -/
def createdProxy (env : SketchEnv) (s0 : Nat) : SketchProxy :=
  (SketchProxy.save ⟨s0, 0, true, 0, 0⟩ env true).1

/-- Iterate n Add mutations with the same values, accumulating the number
of registry saves performed. -/
def iterAdds (env : SketchEnv) (values : List (List Nat)) (sp : SketchProxy) :
    Nat → SketchProxy × Nat
  | 0 => (sp, 0)
  | n + 1 =>
    let st := iterAdds env values sp n
    let st' := st.1.Add env values
    (st'.1, st.2 + st'.2.2.2)

/-! Concrete fixtures used by counterexamples and witnesses. -/

/-- OS read oracle that always succeeds with the bytes 5, 6. -/
def readOkOracle : Int → Nat → ReadOutcome := fun _ _ => .ok [5, 6]

/-- OS read oracle that always fails with code 7, leaving the buffer 0, 0
behind. -/
def readFailOracle : Int → Nat → ReadOutcome := fun _ _ => .fail 7 [0, 0]

/-- Freshly opened file of capacity 4 with the given read oracle and an
error-free write oracle. -/
def testFile (r : Int → Nat → ReadOutcome) : File :=
  NewFile r (fun _ _ => none) 4

/-- Manager whose medium rejects every open attempt with error code 3. -/
def openFailManager : Manager :=
  ⟨[], [], fun _ => some 3, fun _ _ _ => .ok [], fun _ _ _ => none⟩

/-- Manager holding one open file registered under identifier a, whose
backing file exists on the medium. -/
def openedManager : Manager :=
  ⟨[("a", testFile readOkOracle)], ["a"], fun _ => none,
    fun _ _ _ => .ok [], fun _ _ _ => none⟩

/-- Sketch environment with threshold 3 and error-free collaborators. -/
def cxEnv : SketchEnv :=
  ⟨3, fun s _ => (s + 1, true, none), fun s _ => (s + 1, true, none),
    fun _ => .ok [], none, none⟩

/-- Cache of capacity 2 at capacity, holding the clean entry 0 as least
recently used and the dirty entry 1 as most recently used. -/
def cxCache2 : Cache :=
  (((Cache.NewLRU 2).Add 0 ⟨[1], false⟩).1.Add 1 ⟨[2], true⟩).1

/-! Claim C1. -/

/-- Claim C1, counterexample: a cache of capacity 1 holds the clean entry
at offset 0 as its least-recently-used (indeed only) entry; inserting a
clean entry at offset 1 puts it over capacity. The claim says the scan
starts at the least-recently-used entry and evicts the first clean entry
found, hence the entry at offset 0; the code instead starts the scan one
step toward the front, finds the just-inserted clean entry at offset 1,
evicts it, and keeps the entry at offset 0 resident. -/
theorem cache_eviction_lru_first_clean_cx :
    (((Cache.NewLRU 1).Add 0 ⟨[7], false⟩).1.Add 1 ⟨[9], false⟩).2
      = [(1, ⟨[9], false⟩)]
    ∧ (((Cache.NewLRU 1).Add 0 ⟨[7], false⟩).1.Add 1 ⟨[9], false⟩).1.ll
      = [(0, ⟨[7], false⟩)] := by
  constructor <;> rfl

/-- Unfolding of removeOldest on a nonempty recency list, read off its
reversed form. -/
theorem removeOldest_eq (m : Nat) (l : List (Int × Item)) (o : Int × Item)
    (rest : List (Int × Item)) (h : l.reverse = o :: rest) :
    Cache.removeOldest ⟨m, l⟩ =
      match rest.find? (fun q => !q.2.dirty) with
      | some p => (⟨m, l.eraseP (keyEq p.1)⟩, [p])
      | none => (⟨m, l.eraseP (keyEq o.1)⟩, [o]) := by
  unfold Cache.removeOldest
  rw [show Cache.ll ⟨m, l⟩ = l from rfl, h]

/-- Claim C1 (amended): when inserting a fresh key puts the cache over its
nonzero capacity, exactly one entry is evicted; the candidates examined for
the dirty flag run from the second-least-recently-used entry toward the
most-recently-used one, the just-inserted entry included, and the first
clean candidate is evicted; the least-recently-used entry itself is not
examined and is evicted, regardless of its dirty flag, exactly when no
candidate is clean. -/
theorem cache_eviction_scan_skips_lru (c : Cache) (k : Int) (v : Item)
    (hmax : c.maxEntries ≠ 0) (hfresh : c.ll.any (keyEq k) = false)
    (hfull : c.maxEntries ≤ c.ll.length) :
    (c.Add k v).2.length = 1
    ∧ (∀ p, (c.ll.reverse.tail ++ [(k, v)]).find? (fun q => !q.2.dirty) = some p →
        (c.Add k v).2 = [p])
    ∧ ((c.ll.reverse.tail ++ [(k, v)]).find? (fun q => !q.2.dirty) = none →
        (c.Add k v).2 = c.ll.reverse.take 1) := by
  have hne : c.ll ≠ [] := by
    intro h
    rw [h] at hfull
    simp at hfull
    exact hmax hfull
  have hrev : c.ll.reverse ≠ [] := by simpa using hne
  obtain ⟨o, t, hot⟩ := List.exists_cons_of_ne_nil hrev
  have hcond : (c.maxEntries != 0 && decide (c.ll.length + 1 > c.maxEntries)) = true := by
    simp [Nat.lt_add_one_iff, hfull, hmax]
  have hadd : c.Add k v = Cache.removeOldest ⟨c.maxEntries, (k, v) :: c.ll⟩ := by
    simp [Cache.Add, hfresh, hcond]
  have hrev2 : ((k, v) :: c.ll).reverse = o :: (t ++ [(k, v)]) := by
    simp [List.reverse_cons, hot]
  have htail : c.ll.reverse.tail = t := by rw [hot]; rfl
  have htake : c.ll.reverse.take 1 = [o] := by rw [hot]; rfl
  rw [hadd, htail, htake, removeOldest_eq c.maxEntries ((k, v) :: c.ll) o (t ++ [(k, v)]) hrev2]
  cases hf : (t ++ [(k, v)]).find? (fun q => !q.2.dirty) with
  | some p =>
    refine ⟨rfl, fun q hq => ?_, fun hq => Option.noConfusion hq⟩
    injection hq with h2
    subst h2
    rfl
  | none =>
    exact ⟨rfl, fun q hq => Option.noConfusion hq, fun _ => rfl⟩

/-- Witness for cache_eviction_scan_skips_lru: a capacity-2 cache at
capacity receiving a fresh clean entry at offset 2 evicts exactly one
entry. -/
theorem cache_eviction_scan_skips_lru_witness :
    ((cxCache2.Add 2 ⟨[3], false⟩).2).length = 1 :=
  (cache_eviction_scan_skips_lru cxCache2 2 ⟨[3], false⟩ (by decide) (by decide)
    (by decide)).1

/-! Claim C2. -/

/-- Claim C2, behaviour of the code at the failing inputs: on a cache miss
where the positional read succeeds (filling the buffer with 5, 6), Read
returns nil but does not insert anything into the cache; on a cache miss
where the positional read fails with code 7, Read inserts the partially
filled buffer into the cache as a clean entry and still returns nil — the
exact inversion of the claimed contract, never propagating the error. -/
theorem file_read_miss_inverted_error_handling :
    ((testFile readOkOracle).Read [0, 0] 0).2 = ([5, 6], none)
    ∧ ((testFile readOkOracle).Read [0, 0] 0).1.queue.ll = []
    ∧ ((testFile readFailOracle).Read [0, 0] 0).2 = ([0, 0], none)
    ∧ ((testFile readFailOracle).Read [0, 0] 0).1.queue.ll
      = [(0, ⟨[0, 0], false⟩)] := by
  refine ⟨rfl, rfl, rfl, rfl⟩

/-! Claim C3. -/

/-- Claim C3, counterexample: with SaveThresholdOps = 3 and error-free
collaborators, a freshly created proxy starts with operation counter 1
(creation runs a forced save, and every save increments the counter).
Running a window of exactly three mutations with no forced save, the save
happens synchronously at the second mutation, and the third — the
SaveThresholdOps-th — performs no save, refuting the claim on this
reachable state. -/
theorem threshold_save_phase_shift_cx :
    (createdProxy cxEnv 0).ops = 1
    ∧ ((iterAdds cxEnv [[0]] (createdProxy cxEnv 0) 2).1.Add cxEnv [[0]]).2.2.2 = 0
    ∧ (iterAdds cxEnv [[0]] (createdProxy cxEnv 0) 2).2 = 1
    ∧ (iterAdds cxEnv [[0]] (createdProxy cxEnv 0) 3).2 = 1 := by
  refine ⟨rfl, rfl, rfl, rfl⟩

/-! Claim C4. -/

/-- Claim C4, counterexample: a manager holding the open file for
identifier a still has a registry entry for a after DeleteData — the code
purges the file and removes the backing file but never removes the
registry entry, which keeps pointing at the purged handle. -/
theorem delete_data_keeps_registry_entry_cx :
    ((openedManager.DeleteData "a").1.cache.map (·.1)) = ["a"]
    ∧ (regGet (openedManager.DeleteData "a").1.cache "a").isSome = true := by
  refine ⟨rfl, rfl⟩

/-! Claim C5. -/

/-- Claim C5, behaviour of the code at the failing input: on a manager
whose medium rejects every open, resolving identifier a fails with error
code 3, yet SaveData still invokes Write on the nil file handle — a Go
nil-pointer dereference — instead of returning the open error without
attempting a write. -/
theorem save_data_write_on_nil_handle :
    (openFailManager.getFileFromCache "a").2.2 = some 3
    ∧ (openFailManager.SaveData "a" [1] 0).2 = SaveOutcome.nilPanic := by
  refine ⟨rfl, rfl⟩

/-- Go loadSketch viewed at the proxy level: a loaded proxy starts with
counter 0 and the dirty flag cleared. -/
def loadedProxy : SketchProxy := ⟨0, 0, false, 0, 0⟩

/-- If the counter is not divisible by the threshold, an unforced save is a
no-op. -/
theorem save_false_no_trigger (sp : SketchProxy) (env : SketchEnv)
    (h : sp.ops % env.thresholdOps ≠ 0) : sp.save env false = (sp, [], 0) := by
  unfold SketchProxy.save
  by_cases hd : sp.dirty
  · simp [hd, h]
  · simp [hd]

/-- Projections of an Add whose incremented counter misses the threshold:
no save happens, the counter grows by one and the proxy stays dirty. -/
theorem add_proj_no_trigger (sp : SketchProxy) (env : SketchEnv)
    (values : List (List Nat)) (h : (sp.ops + 1) % env.thresholdOps ≠ 0) :
    (sp.Add env values).1.ops = sp.ops + 1
    ∧ (sp.Add env values).1.dirty = true
    ∧ (sp.Add env values).2.2.2 = 0 := by
  simp only [SketchProxy.Add]
  rw [save_false_no_trigger
    ⟨(env.sketchAdd sp.sketch values).1, sp.ops + 1, true, sp.adds + 1,
      sp.removes⟩ env h]
  exact ⟨rfl, rfl, rfl⟩

/-- Projections of an Add whose incremented counter hits the threshold:
exactly one save happens synchronously, the counter grows by two (the save
increments it again) and the dirty flag is cleared. -/
theorem add_proj_trigger (sp : SketchProxy) (env : SketchEnv)
    (values : List (List Nat)) (h : (sp.ops + 1) % env.thresholdOps = 0) :
    (sp.Add env values).1.ops = sp.ops + 2
    ∧ (sp.Add env values).1.dirty = false
    ∧ (sp.Add env values).2.2.2 = 1 := by
  unfold SketchProxy.Add SketchProxy.save
  simp [h]

/-- Running k < threshold mutations from a proxy whose counter is aligned
to the threshold performs no save and advances the counter by k. -/
theorem iterAdds_invariant (env : SketchEnv) (values : List (List Nat))
    (sp : SketchProxy) (hops : sp.ops % env.thresholdOps = 0) :
    ∀ k, k < env.thresholdOps →
      (iterAdds env values sp k).2 = 0
      ∧ (iterAdds env values sp k).1.ops = sp.ops + k := by
  obtain ⟨q, hq⟩ := Nat.dvd_of_mod_eq_zero hops
  intro k
  induction k with
  | zero => exact fun _ => ⟨rfl, rfl⟩
  | succ n ih =>
    intro hk
    obtain ⟨h0, hopsn⟩ := ih (Nat.lt_of_succ_lt hk)
    have hmod : ((iterAdds env values sp n).1.ops + 1) % env.thresholdOps ≠ 0 := by
      rw [hopsn, hq, Nat.add_assoc, Nat.mul_add_mod,
        Nat.mod_eq_of_lt hk]
      exact Nat.succ_ne_zero n
    obtain ⟨ha1, _, ha3⟩ :=
      add_proj_no_trigger (iterAdds env values sp n).1 env values hmod
    refine ⟨?_, ?_⟩
    · show (iterAdds env values sp n).2
        + ((iterAdds env values sp n).1.Add env values).2.2.2 = 0
      rw [h0, ha3]
    · show ((iterAdds env values sp n).1.Add env values).1.ops = sp.ops + (n + 1)
      rw [ha1, hopsn, Nat.add_assoc]

/-- Claim C3 (amended): from a proxy whose operation counter is congruent
to 0 modulo SaveThresholdOps — e.g. a freshly loaded proxy — a window of
exactly SaveThresholdOps mutations with no forced save performs no save
before the SaveThresholdOps-th mutation and exactly one save, happening
synchronously at the SaveThresholdOps-th mutation; in general a save is
performed exactly when the proxy is dirty and force is set or the counter
is congruent to 0 modulo SaveThresholdOps. (Each performed save also
increments the counter by one, which shifts the phase of later windows;
the original claim fails on such shifted states.) -/
theorem threshold_save_from_aligned_counter (env : SketchEnv)
    (values : List (List Nat)) (sp : SketchProxy)
    (hT : 0 < env.thresholdOps) (hops : sp.ops % env.thresholdOps = 0) :
    (∀ k, k < env.thresholdOps → (iterAdds env values sp k).2 = 0)
    ∧ ((iterAdds env values sp (env.thresholdOps - 1)).1.Add env values).2.2.2 = 1
    ∧ (iterAdds env values sp env.thresholdOps).2 = 1
    ∧ (∀ sp2 : SketchProxy, ∀ force : Bool,
        ((sp2.save env force).2.2 = 1 ↔
          sp2.dirty = true
          ∧ (force = true ∨ sp2.ops % env.thresholdOps = 0))) := by
  have hpred : env.thresholdOps - 1 < env.thresholdOps := Nat.sub_lt hT Nat.one_pos
  obtain ⟨h0, hopsn⟩ := iterAdds_invariant env values sp hops _ hpred
  have hmod : ((iterAdds env values sp (env.thresholdOps - 1)).1.ops + 1)
      % env.thresholdOps = 0 := by
    rw [hopsn, Nat.add_assoc, Nat.sub_add_cancel hT, Nat.add_mod, hops,
      Nat.mod_self]
    rfl
  obtain ⟨_, _, hb3⟩ :=
    add_proj_trigger (iterAdds env values sp (env.thresholdOps - 1)).1 env values hmod
  refine ⟨fun k hk => (iterAdds_invariant env values sp hops k hk).1, hb3, ?_, ?_⟩
  · have hsucc : env.thresholdOps = (env.thresholdOps - 1) + 1 :=
      (Nat.sub_add_cancel hT).symm
    rw [hsucc]
    show (iterAdds env values sp (env.thresholdOps - 1)).2
      + ((iterAdds env values sp (env.thresholdOps - 1)).1.Add env values).2.2.2 = 1
    rw [h0, hb3]
  · intro sp2 force
    unfold SketchProxy.save
    by_cases hd : sp2.dirty
    · by_cases hm : sp2.ops % env.thresholdOps = 0
      · cases force <;> simp [hd, hm]
      · cases force <;> simp [hd, hm]
    · rw [Bool.not_eq_true] at hd
      simp [hd]

/-- Witness for threshold_save_from_aligned_counter: a freshly loaded
proxy under threshold 3 performs exactly one save in its first window of
three mutations. -/
theorem threshold_save_from_aligned_counter_witness :
    (iterAdds cxEnv [[0]] loadedProxy 3).2 = 1 :=
  (threshold_save_from_aligned_counter cxEnv [[0]] loadedProxy (by decide)
    (by decide)).2.2.1

/-! Claim C9. -/

/-- Sketch environment whose save path always fails: marshalling fails
with code 9, the data write with code 8 and the metadata write with code
7; threshold and sketch mutations agree with cxEnv. -/
def cxEnvErr : SketchEnv :=
  ⟨3, fun s _ => (s + 1, true, none), fun s _ => (s + 1, true, none),
    fun _ => .error 9, some 8, some 7⟩

/-- Claim C9: a mutation returns exactly the (bool, error) result of the
underlying sketch mutation; replacing the marshalling and registry-write
oracles by arbitrarily failing ones — leaving threshold and sketch
mutations unchanged — does not change the returned result, so save-path
errors are never propagated to the mutation caller. -/
theorem mutation_result_independent_of_save_errors (env env' : SketchEnv)
    (sp : SketchProxy) (values : List (List Nat))
    (hT : 0 < env.thresholdOps)
    (hTe : env'.thresholdOps = env.thresholdOps)
    (hA : env'.sketchAdd = env.sketchAdd)
    (hR : env'.sketchRemove = env.sketchRemove) :
    (sp.Add env values).2.1 = (env.sketchAdd sp.sketch values).2
    ∧ (sp.Remove env values).2.1 = (env.sketchRemove sp.sketch values).2
    ∧ (sp.Add env' values).2.1 = (sp.Add env values).2.1
    ∧ (sp.Remove env' values).2.1 = (sp.Remove env values).2.1 := by
  refine ⟨rfl, rfl, ?_, ?_⟩
  · show (env'.sketchAdd sp.sketch values).2 = (env.sketchAdd sp.sketch values).2
    rw [hA]
  · show (env'.sketchRemove sp.sketch values).2
      = (env.sketchRemove sp.sketch values).2
    rw [hR]

/-- Witness for mutation_result_independent_of_save_errors: an Add under
the always-failing save environment returns the same result as under the
error-free one. -/
theorem mutation_result_independent_of_save_errors_witness :
    (loadedProxy.Add cxEnvErr [[0]]).2.1 = (loadedProxy.Add cxEnv [[0]]).2.1 :=
  (mutation_result_independent_of_save_errors cxEnv cxEnvErr loadedProxy [[0]]
    (by decide) rfl rfl rfl).2.2.1

/-! Claim C10. -/

/-- Claim C10: a Read hitting a cached entry shorter than the requested
buffer returns success while copying nothing — the caller's buffer comes
back unchanged, no error is returned, and no positional read of the OS
file is issued. -/
theorem read_short_cached_entry_leaves_buffer (f : File) (data : List Nat)
    (offset : Int) (v : Item)
    (hpeek : f.queue.peek offset = some v)
    (hlen : v.bytes.length < data.length) :
    (f.Read data offset).2.1 = data
    ∧ (f.Read data offset).2.2 = none
    ∧ (f.Read data offset).1.rtrace = f.rtrace := by
  obtain ⟨p, hp, hpv⟩ : ∃ p, f.queue.ll.find? (keyEq offset) = some p ∧ p.2 = v := by
    unfold Cache.peek at hpeek
    cases hfind : f.queue.ll.find? (keyEq offset) with
    | some p =>
      rw [hfind] at hpeek
      simp at hpeek
      exact ⟨p, rfl, hpeek⟩
    | none =>
      rw [hfind] at hpeek
      simp at hpeek
  subst hpv
  have hnot : ¬ data.length ≤ p.2.bytes.length := Nat.not_le.mpr hlen
  unfold File.Read Cache.get
  rw [hp]
  simp [hnot]

/-- Witness for read_short_cached_entry_leaves_buffer: reading two bytes
at offset 0 of a file caching the one-byte entry 1 there leaves the
buffer 0, 0 unchanged. -/
theorem read_short_cached_entry_leaves_buffer_witness :
    (((testFile readOkOracle).Write [1] 0).Read [0, 0] 0).2.1 = [0, 0] :=
  (read_short_cached_entry_leaves_buffer ((testFile readOkOracle).Write [1] 0)
    [0, 0] 0 ⟨[1], true⟩ (by decide) (by decide)).1

/-- A positional write on a closed file only records a failed write. -/
theorem writeAt_closed (f : File) (h : f.closed = true) (b : List Nat) (k : Int) :
    f.writeAt b k =
      ({f with wtrace := f.wtrace ++ [(k, b, false)]}, some closedFileErr) := by
  rw [File.writeAt, if_pos h]

/-- On a closed file, applying the eviction callback to a list of entries
issues exactly one failed positional write per entry and changes nothing
else. -/
theorem applyEvictions_closed (f : File) (h : f.closed = true)
    (evs : List (Int × Item)) :
    f.applyEvictions evs =
      {f with wtrace := f.wtrace ++ evs.map (fun p => (p.1, p.2.bytes, false))} := by
  induction evs generalizing f with
  | nil => simp [File.applyEvictions]
  | cons e rest ih =>
    show ((f.writeAt e.2.bytes e.1).1).applyEvictions rest = _
    rw [writeAt_closed f h]
    rw [ih {f with wtrace := f.wtrace ++ [(e.1, e.2.bytes, false)]} h]
    simp [List.append_assoc]

/-- Full description of Purge: it closes the handle, empties the cache,
resets the write counter and issues one failed write-back per formerly
resident entry; in particular nothing reaches the medium. -/
theorem Purge_eq (f : File) :
    f.Purge = ⟨true, f.osRead, f.osWriteErr, ⟨f.queue.maxEntries, []⟩, f.size, 0,
      f.rtrace, f.wtrace ++ f.queue.ll.map (fun p => (p.1, p.2.bytes, false))⟩ := by
  have h := applyEvictions_closed
    ⟨true, f.osRead, f.osWriteErr, ⟨f.queue.maxEntries, []⟩, f.size, f.ops,
      f.rtrace, f.wtrace⟩ rfl f.queue.ll
  simp only [File.Purge, Cache.clear]
  rw [h]

/-- Setting the file stored under a present identifier makes the registry
return it, at the same set of identifiers. -/
theorem regGet_regSet (cache : List (String × File)) (id : String) (g : File)
    (h : (regGet cache id).isSome = true) :
    regGet (regSet cache id g) id = some g := by
  induction cache with
  | nil => simp [regGet] at h
  | cons p rest ih =>
    cases hp : (p.1 == id) with
    | true =>
      unfold regSet regGet
      simp only [List.map_cons, if_pos hp]
      simp [List.find?_cons]
    | false =>
      have hne : ¬ ((p.1 == id) = true) := by simp [hp]
      unfold regSet regGet
      simp only [List.map_cons, if_neg hne]
      simp only [List.find?_cons, hp]
      have h' : (regGet rest id).isSome = true := by
        unfold regGet at h
        simp only [List.find?_cons, hp] at h
        exact h
      have hr := ih h'
      unfold regGet regSet at hr
      exact hr

/-- Claim C4 (amended): for an identifier whose file is open in the
registry and whose backing file exists on a duplicate-free medium,
deleteData purges the file — the handle is closed, the cache emptied
without any successful write-back, the write counter reset — and then
removes the backing file from the medium, returning no error; the registry
entry is NOT removed: it remains, now mapping the identifier to the purged
handle. -/
theorem delete_data_purges_and_removes_backing_file (m : Manager) (id : String)
    (f : File) (hopen : regGet m.cache id = some f)
    (hdisk : m.disk.contains id = true) (hnodup : m.disk.Nodup) :
    (m.DeleteData id).2 = none
    ∧ regGet (m.DeleteData id).1.cache id = some f.Purge
    ∧ f.Purge.closed = true
    ∧ f.Purge.queue.ll = []
    ∧ f.Purge.ops = 0
    ∧ (∀ w ∈ f.Purge.wtrace, w ∈ f.wtrace ∨ w.2.2 = false)
    ∧ (m.DeleteData id).1.cache.map (fun p => p.1) = m.cache.map (fun p => p.1)
    ∧ (m.DeleteData id).1.disk.contains id = false := by
  have hdel : m.DeleteData id =
      ({m with cache := regSet m.cache id f.Purge, disk := m.disk.erase id}, none) := by
    unfold Manager.DeleteData
    rw [hopen]
    have hmem : id ∈ m.disk := by simpa using hdisk
    simp [hmem]
  rw [hdel]
  refine ⟨rfl, ?_, ?_, ?_, ?_, ?_, ?_, ?_⟩
  · exact regGet_regSet m.cache id f.Purge (by rw [hopen]; rfl)
  · rw [Purge_eq]
  · rw [Purge_eq]
  · rw [Purge_eq]
  · intro w hw
    rw [Purge_eq] at hw
    simp only at hw
    rcases List.mem_append.mp hw with h1 | h2
    · exact Or.inl h1
    · obtain ⟨p, _, hp⟩ := List.mem_map.mp h2
      right
      rw [← hp]
  · show (regSet m.cache id f.Purge).map (fun p => p.1) = _
    unfold regSet
    rw [List.map_map]
    apply List.map_congr_left
    intro p _
    by_cases hp : p.1 == id
    · simp only [Function.comp, if_pos hp]
      exact (eq_of_beq hp).symm
    · simp only [Function.comp, if_neg hp]
  · simp only
    have : id ∉ m.disk.erase id := hnodup.not_mem_erase
    simpa using this

/-- Witness for delete_data_purges_and_removes_backing_file: deleting the
open identifier a of the one-file manager returns no error. -/
theorem delete_data_purges_and_removes_backing_file_witness :
    (openedManager.DeleteData "a").2 = none :=
  (delete_data_purges_and_removes_backing_file openedManager "a"
    (testFile readOkOracle) rfl rfl (List.nodup_singleton "a")).1

/-! Claim C6. -/

/-- Run a sequence of Add operations, accumulating every entry handed to
the eviction callback. -/
def Cache.runAdds (c : Cache) : List (Int × Item) → Cache × List (Int × Item)
  | [] => (c, [])
  | p :: rest =>
    let st := c.Add p.1 p.2
    let st' := st.1.runAdds rest
    (st'.1, st.2 ++ st'.2)

/-- removeOldest never changes the capacity field. -/
theorem removeOldest_maxEntries (c : Cache) :
    (c.removeOldest).1.maxEntries = c.maxEntries := by
  rcases h : c.ll.reverse with _ | ⟨o, t⟩
  · unfold Cache.removeOldest
    rw [h]
  · rw [removeOldest_eq c.maxEntries c.ll o t h]
    cases (t.find? (fun q => !q.2.dirty)) <;> rfl

/-- On a nonempty cache, removeOldest removes exactly one entry. -/
theorem removeOldest_length (c : Cache) (o : Int × Item) (t : List (Int × Item))
    (h : c.ll.reverse = o :: t) :
    (c.removeOldest).1.ll.length + 1 = c.ll.length := by
  rw [removeOldest_eq c.maxEntries c.ll o t h]
  cases hf : (t.find? (fun q => !q.2.dirty)) with
  | some p =>
    have hmem : p ∈ c.ll := by
      have h1 : p ∈ o :: t := List.mem_cons_of_mem o (List.mem_of_find?_eq_some hf)
      rw [← h] at h1
      exact List.mem_reverse.mp h1
    exact List.length_eraseP_add_one hmem (by simp [keyEq])
  | none =>
    have hmem : o ∈ c.ll := by
      have h1 : o ∈ o :: t := List.mem_cons_self o t
      rw [← h] at h1
      exact List.mem_reverse.mp h1
    exact List.length_eraseP_add_one hmem (by simp [keyEq])

/-- Adding to a cache of nonzero capacity at or below capacity keeps it at
or below capacity, and never changes the capacity field. -/
theorem Add_bound (c : Cache) (k : Int) (v : Item) :
    (c.Add k v).1.maxEntries = c.maxEntries
    ∧ (0 < c.maxEntries → c.ll.length ≤ c.maxEntries →
        (c.Add k v).1.ll.length ≤ c.maxEntries) := by
  by_cases hany : c.ll.any (keyEq k) = true
  · constructor
    · simp [Cache.Add, hany]
    · intro _ hlen
      obtain ⟨x, hx, hpx⟩ := List.any_eq_true.mp hany
      have herase := List.length_eraseP_add_one hx hpx
      simp only [Cache.Add, if_pos hany, List.length_cons]
      omega
  · have hany' : c.ll.any (keyEq k) = false := by simpa using hany
    by_cases hover : c.ll.length + 1 > c.maxEntries
    · by_cases hzero : c.maxEntries = 0
      · constructor
        · simp [Cache.Add, hany', hzero]
        · intro hpos _
          omega
      · have hcond : ((c.maxEntries != 0)
            && decide (c.ll.length + 1 > c.maxEntries)) = true := by
          simp [hzero, hover]
        have hadd : c.Add k v = Cache.removeOldest ⟨c.maxEntries, (k, v) :: c.ll⟩ := by
          simp [Cache.Add, hany', hcond]
        constructor
        · rw [hadd, removeOldest_maxEntries]
        · intro hpos hlen
          have hne : ((k, v) :: c.ll).reverse ≠ [] := by simp
          obtain ⟨o, t, hot⟩ := List.exists_cons_of_ne_nil hne
          have hL := removeOldest_length ⟨c.maxEntries, (k, v) :: c.ll⟩ o t hot
          rw [hadd]
          simp only [List.length_cons] at hL
          omega
    · have hcond : ((c.maxEntries != 0)
          && decide (c.ll.length + 1 > c.maxEntries)) = false := by
        simp [hover]
      constructor
      · simp [Cache.Add, hany', hcond]
      · intro _ _
        have : (c.Add k v).1.ll = (k, v) :: c.ll := by
          simp [Cache.Add, hany', hcond]
        rw [this]
        simp only [List.length_cons]
        omega

/-- Adding to a cache of capacity zero never evicts. -/
theorem Add_zero_cap (c : Cache) (k : Int) (v : Item) (h : c.maxEntries = 0) :
    (c.Add k v).2 = [] ∧ (c.Add k v).1.maxEntries = 0 := by
  by_cases hany : c.ll.any (keyEq k) = true
  · simp [Cache.Add, hany, h]
  · have hany' : c.ll.any (keyEq k) = false := by simpa using hany
    simp [Cache.Add, hany', h]

/-- Claim C6: from an empty cache of configured capacity cap, any sequence
of Add operations keeps the number of resident entries at most cap when
cap is positive (every prefix of a sequence being itself a sequence, this
bounds the count after each operation); when cap is zero no Add ever hands
an entry to the eviction callback, so the unbounded cache never evicts on
its own. -/
theorem cache_bound_and_zero_capacity (cap : Nat) (ops : List (Int × Item)) :
    (0 < cap → ((Cache.NewLRU cap).runAdds ops).1.ll.length ≤ cap)
    ∧ (cap = 0 → ((Cache.NewLRU cap).runAdds ops).2 = []) := by
  have main : ∀ (ops : List (Int × Item)) (c : Cache),
      ((0 < c.maxEntries → c.ll.length ≤ c.maxEntries →
        ((c.runAdds ops).1.ll.length ≤ c.maxEntries
          ∧ (c.runAdds ops).1.maxEntries = c.maxEntries))
      ∧ (c.maxEntries = 0 → (c.runAdds ops).2 = [])) := by
    intro ops
    induction ops with
    | nil => exact fun c => ⟨fun _ h => ⟨h, rfl⟩, fun _ => rfl⟩
    | cons p rest ih =>
      intro c
      obtain ⟨hmax, hbound⟩ := Add_bound c p.1 p.2
      constructor
      · intro hpos hlen
        have hb := hbound hpos hlen
        have := (ih (c.Add p.1 p.2).1).1 (by rw [hmax]; exact hpos)
          (by rw [hmax]; exact hb)
        show ((c.Add p.1 p.2).1.runAdds rest).1.ll.length ≤ c.maxEntries
          ∧ ((c.Add p.1 p.2).1.runAdds rest).1.maxEntries = c.maxEntries
        rw [← hmax]
        exact this
      · intro hzero
        obtain ⟨hev, hmax0⟩ := Add_zero_cap c p.1 p.2 hzero
        have hrest := (ih (c.Add p.1 p.2).1).2 hmax0
        show (c.Add p.1 p.2).2 ++ ((c.Add p.1 p.2).1.runAdds rest).2 = []
        rw [hev, hrest]
        rfl
  exact ⟨fun hpos => ((main ops (Cache.NewLRU cap)).1 hpos (by simp [Cache.NewLRU])).1,
    fun hzero => (main ops (Cache.NewLRU cap)).2 hzero⟩

/-- Witness for cache_bound_and_zero_capacity: three inserts into a
capacity-1 cache leave at most one resident entry. -/
theorem cache_bound_and_zero_capacity_witness :
    ((Cache.NewLRU 1).runAdds
      [(0, ⟨[1], true⟩), (1, ⟨[2], false⟩), (2, ⟨[3], true⟩)]).1.ll.length ≤ 1 :=
  (cache_bound_and_zero_capacity 1
    [(0, ⟨[1], true⟩), (1, ⟨[2], false⟩), (2, ⟨[3], true⟩)]).1 (by decide)

/-! Infrastructure shared by claims C7 and C8: flushing rewrites dirty
flags and traces but never the keys or bytes of resident entries. -/

/-- Key and bytes of a cache entry, the part of an entry flushing cannot
change. -/
def entryProj (p : Int × Item) : Int × List Nat := (p.1, p.2.bytes)

/-- A positional write appends exactly one trace element and changes
nothing else of the file. -/
theorem writeAt_spec (f : File) (b : List Nat) (k : Int) :
    ∃ s err, f.writeAt b k = ({f with wtrace := f.wtrace ++ [(k, b, s)]}, err) := by
  unfold File.writeAt
  by_cases h : f.closed = true
  · exact ⟨false, some closedFileErr, by rw [if_pos h]⟩
  · rw [if_neg h]
    cases hw : f.osWriteErr k b with
    | some e => exact ⟨false, some e, rfl⟩
    | none => exact ⟨true, none, rfl⟩

/-- The eviction callback writes never touch the cache. -/
theorem applyEvictions_queue (f : File) (evs : List (Int × Item)) :
    (f.applyEvictions evs).queue = f.queue := by
  induction evs generalizing f with
  | nil => rfl
  | cons e rest ih =>
    obtain ⟨s, err, hw⟩ := writeAt_spec f e.2.bytes e.1
    show (((f.writeAt e.2.bytes e.1).1).applyEvictions rest).queue = f.queue
    rw [hw]
    exact ih {f with wtrace := f.wtrace ++ [(e.1, e.2.bytes, s)]}

/-- One-step unfolding of the flush loop. -/
theorem flushKeys_cons (f : File) (k : Int) (rest : List Int) :
    f.flushKeys (k :: rest) =
      match f.queue.peek k with
      | none => f.flushKeys rest
      | some it =>
        if it.dirty then
          match f.writeAt it.bytes k with
          | (f', some e) => (f', some e)
          | (f', none) =>
            File.flushKeys {f' with queue := f'.queue.setDirty k false} rest
        else
          File.flushKeys {f with queue := f.queue.setDirty k false} rest := rfl

/-- Flush step on a key absent from the cache: skip. -/
theorem flushKeys_peek_none (f : File) (k : Int) (rest : List Int)
    (h : f.queue.peek k = none) :
    f.flushKeys (k :: rest) = f.flushKeys rest := by
  rw [flushKeys_cons, h]

/-- Flush step on a clean entry: only its dirty flag is rewritten (to its
current value). -/
theorem flushKeys_clean_step (f : File) (k : Int) (rest : List Int) (it : Item)
    (h : f.queue.peek k = some it) (hd : it.dirty = false) :
    f.flushKeys (k :: rest)
      = File.flushKeys {f with queue := f.queue.setDirty k false} rest := by
  rw [flushKeys_cons, h]
  simp [hd]

/-- Flush step on a dirty entry: issue the positional write and dispatch
on its outcome. -/
theorem flushKeys_dirty_step (f : File) (k : Int) (rest : List Int) (it : Item)
    (h : f.queue.peek k = some it) (hd : it.dirty = true) :
    f.flushKeys (k :: rest) =
      match f.writeAt it.bytes k with
      | (f', some e) => (f', some e)
      | (f', none) =>
        File.flushKeys {f' with queue := f'.queue.setDirty k false} rest := by
  rw [flushKeys_cons, h]
  simp [hd]

/-- Flush step on a dirty entry whose write succeeds: record the write and
clear the flag. -/
theorem flushKeys_dirty_ok (f : File) (k : Int) (rest : List Int) (it : Item)
    (s : Bool) (h : f.queue.peek k = some it) (hd : it.dirty = true)
    (hw : f.writeAt it.bytes k
      = ({f with wtrace := f.wtrace ++ [(k, it.bytes, s)]}, none)) :
    f.flushKeys (k :: rest) = File.flushKeys
      {({f with wtrace := f.wtrace ++ [(k, it.bytes, s)]} : File)
        with queue := f.queue.setDirty k false} rest := by
  rw [flushKeys_dirty_step f k rest it h hd, hw]

/-- Flush step on a dirty entry whose write fails: return the error at
once, leaving the dirty flag set. -/
theorem flushKeys_dirty_err (f : File) (k : Int) (rest : List Int) (it : Item)
    (s : Bool) (e : Nat) (h : f.queue.peek k = some it) (hd : it.dirty = true)
    (hw : f.writeAt it.bytes k
      = ({f with wtrace := f.wtrace ++ [(k, it.bytes, s)]}, some e)) :
    f.flushKeys (k :: rest)
      = ({f with wtrace := f.wtrace ++ [(k, it.bytes, s)]}, some e) := by
  rw [flushKeys_dirty_step f k rest it h hd, hw]

/-- Setting a dirty flag preserves the keys and bytes of all entries. -/
theorem setDirty_proj (c : Cache) (k : Int) (d : Bool) :
    (c.setDirty k d).ll.map entryProj = c.ll.map entryProj := by
  show (c.ll.map fun p =>
    if p.1 == k then (p.1, (⟨p.2.bytes, d⟩ : Item)) else p).map entryProj
    = c.ll.map entryProj
  rw [List.map_map]
  apply List.map_congr_left
  intro p _
  by_cases hp : (p.1 == k) = true
  · simp [entryProj, Function.comp, hp]
  · simp [entryProj, Function.comp, hp]

/-- The flush loop preserves the keys and bytes of all resident entries
and the capacity of the cache: entries remain resident. -/
theorem flushKeys_queue_proj (ks : List Int) (f : File) :
    (f.flushKeys ks).1.queue.ll.map entryProj = f.queue.ll.map entryProj
    ∧ (f.flushKeys ks).1.queue.maxEntries = f.queue.maxEntries := by
  induction ks generalizing f with
  | nil => exact ⟨rfl, rfl⟩
  | cons k rest ih =>
    cases hpk : f.queue.peek k with
    | none =>
      rw [flushKeys_peek_none f k rest hpk]
      exact ih f
    | some it =>
      obtain ⟨s, err, hw⟩ := writeAt_spec f it.bytes k
      by_cases hd : it.dirty = true
      · cases err with
        | some e =>
          rw [flushKeys_dirty_err f k rest it s e hpk hd hw]
          exact ⟨rfl, rfl⟩
        | none =>
          rw [flushKeys_dirty_ok f k rest it s hpk hd hw]
          have hr := ih {({f with wtrace := f.wtrace ++ [(k, it.bytes, s)]} : File)
            with queue := f.queue.setDirty k false}
          rw [hr.1, hr.2]
          exact ⟨setDirty_proj f.queue k false, rfl⟩
      · have hd' : it.dirty = false := by simpa using hd
        rw [flushKeys_clean_step f k rest it hpk hd']
        have hr := ih {f with queue := f.queue.setDirty k false}
        rw [hr.1, hr.2]
        exact ⟨setDirty_proj f.queue k false, rfl⟩

/-- Two entry lists agreeing on keys and bytes yield the same bytes on any
key search. -/
theorem find?_proj_bytes (l1 : List (Int × Item)) (k : Int) :
    ∀ l2 : List (Int × Item), l1.map entryProj = l2.map entryProj →
      (l1.find? (keyEq k)).map (fun p => p.2.bytes)
        = (l2.find? (keyEq k)).map (fun p => p.2.bytes) := by
  induction l1 with
  | nil =>
    intro l2 h
    cases l2 with
    | nil => rfl
    | cons b t => simp at h
  | cons a t1 ih =>
    intro l2 h
    cases l2 with
    | nil => simp at h
    | cons b t2 =>
      simp only [List.map_cons, List.cons.injEq] at h
      obtain ⟨hab, ht⟩ := h
      have hk : a.1 = b.1 := by
        have h1 := congrArg Prod.fst hab
        simpa [entryProj] using h1
      have hbytes : a.2.bytes = b.2.bytes := by
        have h2 := congrArg Prod.snd hab
        simpa [entryProj] using h2
      by_cases hka : (a.1 == k) = true
      · have hkb : (b.1 == k) = true := by rw [← hk]; exact hka
        simp [List.find?_cons, keyEq, hka, hkb, hbytes]
      · have hka' : (a.1 == k) = false := by simpa using hka
        have hkb : (b.1 == k) = false := by rw [← hk]; exact hka'
        simp only [List.find?_cons, keyEq, hka', hkb]
        exact ih t2 ht

/-! Claim C7. -/

/-- After adding a dirty entry, the entry found under its key is exactly
the added one: an overwrite replaces the value at the front, a fresh
insert sits at the front, and an eviction triggered by the insert never
selects the just-inserted dirty entry (the clean scan skips it and the
fallback evicts the back, which is an older entry). -/
theorem Add_find_dirty (c : Cache) (k : Int) (v : Item) (hv : v.dirty = true) :
    (c.Add k v).1.ll.find? (keyEq k) = some (k, v) := by
  by_cases hany : c.ll.any (keyEq k) = true
  · simp only [Cache.Add, if_pos hany]
    simp [List.find?_cons, keyEq]
  · have hany' : c.ll.any (keyEq k) = false := by simpa using hany
    have hnok : ∀ x ∈ c.ll, (x.1 == k) = false := by
      intro x hx
      have hh := List.any_eq_false.mp hany' x hx
      simpa [keyEq] using hh
    by_cases hcond : ((c.maxEntries != 0)
        && decide (c.ll.length + 1 > c.maxEntries)) = true
    · have hadd : c.Add k v = Cache.removeOldest ⟨c.maxEntries, (k, v) :: c.ll⟩ := by
        simp [Cache.Add, hany', hcond]
      have hmaxne : c.maxEntries ≠ 0 := by
        intro h0
        rw [h0] at hcond
        simp at hcond
      have hover : c.ll.length + 1 > c.maxEntries := by
        have hconds := hcond
        simp at hconds
        exact hconds.2
      have hllne : c.ll ≠ [] := by
        intro h0
        rw [h0] at hover
        simp at hover
        omega
      have hrevne : c.ll.reverse ≠ [] := by simpa using hllne
      obtain ⟨o, t, hot⟩ := List.exists_cons_of_ne_nil hrevne
      have hrev2 : ((k, v) :: c.ll).reverse = o :: (t ++ [(k, v)]) := by
        simp [hot]
      rw [hadd,
        removeOldest_eq c.maxEntries ((k, v) :: c.ll) o (t ++ [(k, v)]) hrev2]
      have homem : o ∈ c.ll := by
        have h1 : o ∈ o :: t := List.mem_cons_self o t
        rw [← hot] at h1
        exact List.mem_reverse.mp h1
      cases hf : ((t ++ [(k, v)]).find? fun q => !q.2.dirty) with
      | some p =>
        have hpclean := List.find?_some hf
        simp only [Bool.not_eq_true'] at hpclean
        have hpmem : p ∈ t ++ [(k, v)] := List.mem_of_find?_eq_some hf
        have hpk : (k == p.1) = false := by
          rcases List.mem_append.mp hpmem with hpt | hpv
          · have hpc : p ∈ c.ll := by
              have h1 : p ∈ o :: t := List.mem_cons_of_mem o hpt
              rw [← hot] at h1
              exact List.mem_reverse.mp h1
            have hx := hnok p hpc
            have hne : p.1 ≠ k := by simpa using hx
            simp [Ne.symm hne]
          · exfalso
            have hpv' : p = (k, v) := by simpa using hpv
            rw [hpv'] at hpclean
            rw [hv] at hpclean
            simp at hpclean
        simp only []
        rw [List.eraseP_cons_of_neg (by simp [keyEq, hpk])]
        simp [List.find?_cons, keyEq]
      | none =>
        have hok : (k == o.1) = false := by
          have hx := hnok o homem
          have hne : o.1 ≠ k := by simpa using hx
          simp [Ne.symm hne]
        simp only []
        rw [List.eraseP_cons_of_neg (by simp [keyEq, hok])]
        simp [List.find?_cons, keyEq]
    · have hll : (c.Add k v).1.ll = (k, v) :: c.ll := by
        simp only [Cache.Add, if_neg (show ¬ (c.ll.any (keyEq k) = true) by
          simp [hany'])]
        simp only [List.length_cons]
        rw [if_neg hcond]
      rw [hll]
      simp [List.find?_cons, keyEq]

/-- After File.Write, the bytes cached under the written offset are
exactly the written buffer — the entry survives both a capacity eviction
(it is dirty, so the clean scan skips it, and it is at the front, so the
fallback cannot pick it) and the forced flush of every size-th write
(flushing preserves bytes). -/
theorem Write_queue_proj (f : File) (B : List Nat) (O : Int) :
    (f.Write B O).queue.ll.map entryProj
      = (f.queue.Add O ⟨B, true⟩).1.ll.map entryProj := by
  simp only [File.Write, File.Flush]
  split
  · rw [(flushKeys_queue_proj _ _).1, applyEvictions_queue]
  · rw [applyEvictions_queue]

theorem Write_cached_bytes (f : File) (B : List Nat) (O : Int) :
    ((f.Write B O).queue.ll.find? (keyEq O)).map (fun p => p.2.bytes)
      = some B := by
  have hfind := Add_find_dirty f.queue O ⟨B, true⟩ rfl
  have heq := find?_proj_bytes ((f.Write B O).queue.ll) O
    ((f.queue.Add O ⟨B, true⟩).1.ll) (Write_queue_proj f B O)
  rw [heq, hfind]
  rfl

/-- Claim C7: writing bytes B at offset O and then reading a buffer of
length equal to B at offset O, with no intervening operations, fills the
buffer with exactly B and returns no error, served from the cache. The
size hypothesis excludes the capacity-zero file, on which the Go write
counter check divides by zero. -/
theorem read_after_write (f : File) (B : List Nat) (O : Int) (buf : List Nat)
    (hsize : 0 < f.size) (hlen : buf.length = B.length) :
    ((f.Write B O).Read buf O).2.1 = B
    ∧ ((f.Write B O).Read buf O).2.2 = none := by
  have hb := Write_cached_bytes f B O
  cases hp : ((f.Write B O).queue.ll.find? (keyEq O)) with
  | none =>
    rw [hp] at hb
    simp at hb
  | some p =>
    rw [hp] at hb
    simp at hb
    unfold File.Read Cache.get
    rw [hp]
    have hge : buf.length ≤ p.2.bytes.length := by rw [hb, hlen]
    simp only [if_pos hge]
    rw [hb, hlen, List.take_length]
    simp

/-- Witness for read_after_write: writing 1, 2 at offset 5 and reading two
bytes there returns 1, 2. -/
theorem read_after_write_witness :
    (((testFile readOkOracle).Write [1, 2] 5).Read [0, 0] 5).2.1 = [1, 2] :=
  (read_after_write (testFile readOkOracle) [1, 2] 5 [0, 0] (by decide)
    (by decide)).1

/-! Claim C8. -/

/-- A successful peek exhibits a resident entry found under the key. -/
theorem peek_some_mem (c : Cache) (k : Int) (it : Item) (h : c.peek k = some it) :
    ∃ p, p ∈ c.ll ∧ c.ll.find? (keyEq k) = some p ∧ p.2 = it := by
  unfold Cache.peek at h
  cases hfind : c.ll.find? (keyEq k) with
  | none =>
    rw [hfind] at h
    simp at h
  | some p =>
    rw [hfind] at h
    simp at h
    exact ⟨p, List.mem_of_find?_eq_some hfind, rfl, h⟩

/-- Membership in a cache after setDirty: the entry either carries the new
flag under the given key, or is an untouched entry under another key. -/
theorem mem_setDirty (c : Cache) (k : Int) (d : Bool) (q : Int × Item)
    (hq : q ∈ (c.setDirty k d).ll) :
    (q.1 = k ∧ q.2.dirty = d) ∨ (q ∈ c.ll ∧ q.1 ≠ k) := by
  obtain ⟨r, hr, hrq⟩ := List.mem_map.mp hq
  by_cases hrk : (r.1 == k) = true
  · left
    constructor
    · rw [← hrq, if_pos hrk]
      exact eq_of_beq hrk
    · rw [← hrq, if_pos hrk]
  · right
    rw [← hrq]
    simp only [if_neg hrk]
    exact ⟨hr, by simpa using hrk⟩

/-- Flushing a file all of whose entries are clean issues no positional
write and reports no error. -/
theorem flushKeys_all_clean (ks : List Int) (f : File)
    (h : ∀ p ∈ f.queue.ll, p.2.dirty = false) :
    (f.flushKeys ks).1.wtrace = f.wtrace ∧ (f.flushKeys ks).2 = none := by
  induction ks generalizing f with
  | nil => exact ⟨rfl, rfl⟩
  | cons k rest ih =>
    cases hpk : f.queue.peek k with
    | none =>
      rw [flushKeys_peek_none f k rest hpk]
      exact ih f h
    | some it =>
      obtain ⟨p, hpmem, _, hpit⟩ := peek_some_mem f.queue k it hpk
      have hclean : it.dirty = false := by rw [← hpit]; exact h p hpmem
      rw [flushKeys_clean_step f k rest it hpk hclean]
      apply ih
      intro q hq
      rcases mem_setDirty f.queue k false q hq with ⟨_, hd⟩ | ⟨hmem, _⟩
      · exact hd
      · exact h q hmem

/-- After a flush that reported no error, every entry under a flushed key
is clean (the others were never touched). -/
theorem flushKeys_clean_result (ks : List Int) (f : File)
    (h : (f.flushKeys ks).2 = none) :
    ∀ p ∈ (f.flushKeys ks).1.queue.ll,
      p.2.dirty = false ∨ (p ∈ f.queue.ll ∧ p.1 ∉ ks) := by
  induction ks generalizing f with
  | nil =>
    intro p hp
    exact Or.inr ⟨hp, by simp⟩
  | cons k rest ih =>
    cases hpk : f.queue.peek k with
    | none =>
      rw [flushKeys_peek_none f k rest hpk] at h ⊢
      intro p hp
      rcases ih f h p hp with hc | ⟨hmem, hnotin⟩
      · exact Or.inl hc
      · refine Or.inr ⟨hmem, ?_⟩
        have hfind : f.queue.ll.find? (keyEq k) = none := by
          unfold Cache.peek at hpk
          cases hfind2 : f.queue.ll.find? (keyEq k) with
          | none => rfl
          | some q => rw [hfind2] at hpk; simp at hpk
        have hnk := List.find?_eq_none.mp hfind p hmem
        have hne : p.1 ≠ k := by simpa [keyEq] using hnk
        rw [List.mem_cons]
        push_neg
        exact ⟨hne, hnotin⟩
    | some it =>
      by_cases hd : it.dirty = true
      · obtain ⟨s, err, hw⟩ := writeAt_spec f it.bytes k
        cases err with
        | some e =>
          rw [flushKeys_dirty_err f k rest it s e hpk hd hw] at h
          simp at h
        | none =>
          rw [flushKeys_dirty_ok f k rest it s hpk hd hw] at h ⊢
          intro p hp
          rcases ih _ h p hp with hc | ⟨hmem, hnotin⟩
          · exact Or.inl hc
          · rcases mem_setDirty f.queue k false p hmem with ⟨_, hdd⟩ | ⟨hm2, hne⟩
            · exact Or.inl hdd
            · refine Or.inr ⟨hm2, ?_⟩
              rw [List.mem_cons]
              push_neg
              exact ⟨hne, hnotin⟩
      · have hd' : it.dirty = false := by simpa using hd
        rw [flushKeys_clean_step f k rest it hpk hd'] at h ⊢
        intro p hp
        rcases ih _ h p hp with hc | ⟨hmem, hnotin⟩
        · exact Or.inl hc
        · rcases mem_setDirty f.queue k false p hmem with ⟨_, hdd⟩ | ⟨hm2, hne⟩
          · exact Or.inl hdd
          · refine Or.inr ⟨hm2, ?_⟩
            rw [List.mem_cons]
            push_neg
            exact ⟨hne, hnotin⟩

/-- A Flush that reported no error has cleared the dirty flag of every
resident entry. -/
theorem flush_clears_all (f : File) (h : (f.Flush).2 = none) :
    ∀ p ∈ (f.Flush).1.queue.ll, p.2.dirty = false := by
  intro p hp
  rcases flushKeys_clean_result f.queue.keys f h p hp with hc | ⟨hmem, hnot⟩
  · exact hc
  · exact absurd (show p.1 ∈ f.queue.keys by
      unfold Cache.keys
      exact List.mem_map.mpr ⟨p, List.mem_reverse.mpr hmem, rfl⟩) hnot

/-- Claim C8: after a flush that reported no error, a second flush with no
intervening writes issues no positional write and reports no error,
because the first flush cleared every entry's dirty flag while leaving all
entries resident (same keys and bytes). -/
theorem flush_idempotent (f : File) (h : (f.Flush).2 = none) :
    ((f.Flush).1.Flush).1.wtrace = (f.Flush).1.wtrace
    ∧ ((f.Flush).1.Flush).2 = none
    ∧ (∀ p ∈ (f.Flush).1.queue.ll, p.2.dirty = false)
    ∧ (f.Flush).1.queue.ll.map entryProj = f.queue.ll.map entryProj := by
  have hall := flush_clears_all f h
  have h2 := flushKeys_all_clean (f.Flush).1.queue.keys (f.Flush).1 hall
  exact ⟨h2.1, h2.2, hall, (flushKeys_queue_proj f.queue.keys f).1⟩

/-- Witness for flush_idempotent: after flushing the file holding one
dirty entry, a second flush appends nothing to the write trace. -/
theorem flush_idempotent_witness :
    ((((testFile readOkOracle).Write [1] 0).Flush).1.Flush).1.wtrace
      = ((((testFile readOkOracle).Write [1] 0)).Flush).1.wtrace :=
  (flush_idempotent ((testFile readOkOracle).Write [1] 0) rfl).1

end Skizze
